import Mathlib

/-!
Verification of the article-page grouping logic, the content-collection
transforms, the clock widget and the JSON-LD component of a personal
portfolio/blog site.

The JavaScript/TypeScript source is shallowly embedded:

* A JavaScript `Date` is embedded as `JSDate`, recording the two observations
  the code makes of it: `getTime()` (milliseconds since the epoch) and
  `getFullYear()`.
* `allArticles.sort((a, b) => b.date.getTime() - a.date.getTime())` is a
  stable sort placing larger timestamps first; it is embedded with
  `List.insertionSort` (stable, like `Array.prototype.sort`).
* The `reduce` that groups posts by year builds a JavaScript object keyed by
  year; the object is embedded as an association list `List (Int × List Article)`
  in insertion order, with lists for the buckets that `push` appends to.
* External library calls (`compileMDX`, `readingTime`, `Intl.DateTimeFormat`,
  the WHATWG `URL` resolver) are higher-order parameters of the embedded
  functions, so every theorem about them holds for each possible behaviour of
  the library.
* `JSON.stringify` is embedded as `jsonStringify`, including its string
  escaping rules.
-/

/-- A JavaScript `Date`, seen through the two accessors the code uses:
`getTime()` and `getFullYear()`. -/
structure JSDate where
  time : Int
  year : Int
deriving Repr, DecidableEq

/-- An element of `allArticles` as the article page consumes it: the fields
used by `postsByYear` and the list rendering. -/
structure Article where
  title : String
  description : String
  date : JSDate
  path : String
deriving Repr, DecidableEq

/-- The comparator `(a, b) => b.date.getTime() - a.date.getTime()`: `a` is
placed before `b` when the comparator is non-positive, i.e. when
`b.date.time ≤ a.date.time`. -/
def byDateDesc (a b : Article) : Prop :=
  b.date.time ≤ a.date.time

instance : DecidableRel byDateDesc := fun a b =>
  inferInstanceAs (Decidable (b.date.time ≤ a.date.time))

instance : IsTotal Article byDateDesc :=
  ⟨fun a b => Int.le_total b.date.time a.date.time⟩

instance : IsTrans Article byDateDesc :=
  ⟨fun _ _ _ h1 h2 => le_trans h2 h1⟩

/-- `allArticles.sort((a, b) => b.date.getTime() - a.date.getTime())`:
a stable sort by descending timestamp. -/
def sortArticles (l : List Article) : List Article :=
  List.insertionSort byDateDesc l

/-- One step of the grouping `reduce` on the embedded record: if the key `y`
is present, `push` the post onto its bucket, otherwise create the bucket
`[post]` under the fresh key `y`. -/
def pushToBucket : List (Int × List Article) → Int → Article → List (Int × List Article)
  | [], y, p => [(y, [p])]
  | (k, ps) :: rest, y, p =>
      if k = y then (k, ps ++ [p]) :: rest else (k, ps) :: pushToBucket rest y p

/-- The grouping `reduce` of the article page, fused over an already sorted
list: each post is filed under `post.date.getFullYear()`. -/
def groupByYear (l : List Article) : List (Int × List Article) :=
  l.foldl (fun acc post => pushToBucket acc post.date.year post) []

/-- `postsByYear`: sort all articles by descending date, then group them by
the year of their date. -/
def postsByYear (l : List Article) : List (Int × List Article) :=
  groupByYear (sortArticles l)

/-- Reading `record[y]` on the embedded record, with `[]` for an absent key
(used to state bucket contents uniformly). -/
def lookupBucket (y : Int) : List (Int × List Article) → List Article
  | [] => []
  | (k, ps) :: rest => if k = y then ps else lookupBucket y rest

/-- The posts of year `y` inside a list, in list order. -/
def postsOfYear (y : Int) (l : List Article) : List Article :=
  l.filter fun p => p.date.year == y

/-- The keys of the embedded record, in insertion order. -/
def bucketKeys (b : List (Int × List Article)) : List Int :=
  b.map Prod.fst

/-- `record[y]` as JavaScript evaluates it: `undefined` (`none`) when the key
is absent. -/
def recordGet (y : Int) : List (Int × List Article) → Option (List Article)
  | [] => none
  | (k, ps) :: rest => if k = y then some ps else recordGet y rest

/-- `record[y] = v`: overwrite the existing entry in place, or append a new
entry (JavaScript objects keep insertion order for later enumeration). -/
def recordSet (y : Int) (v : List Article) : List (Int × List Article) → List (Int × List Article)
  | [] => [(y, v)]
  | (k, ps) :: rest => if k = y then (k, v) :: rest else (k, ps) :: recordSet y v rest

/-- The body of the `reduce` callback with the JavaScript hazard made
explicit: `acc[year].push(post)` throws a `TypeError` when `acc[year]` is
`undefined`; the `if (!acc[year])` guard is supposed to rule that out. -/
def reduceStepJS (acc : List (Int × List Article)) (post : Article) :
    Except String (List (Int × List Article)) :=
  let year := post.date.year
  let acc1 := match recordGet year acc with
    | none => recordSet year [] acc
    | some _ => acc
  match recordGet year acc1 with
  | none => Except.error "TypeError: cannot read properties of undefined"
  | some ps => Except.ok (recordSet year (ps ++ [post]) acc1)

/-- `postsByYear` with the per-step `TypeError` hazard kept as an
`Except` effect. -/
def postsByYearJS (l : List Article) : Except String (List (Int × List Article)) :=
  (sortArticles l).foldlM reduceStepJS []

/-- The comparator of the rendering step,
`.sort(([a], [b]) => Number(b) - Number(a))`: an entry `e1` is placed before
`e2` when `e2`'s numeric key is at most `e1`'s. -/
def entriesDesc (e1 e2 : Int × List Article) : Prop :=
  e2.1 ≤ e1.1

instance : DecidableRel entriesDesc := fun e1 e2 =>
  inferInstanceAs (Decidable (e2.1 ≤ e1.1))

instance : IsTotal (Int × List Article) entriesDesc :=
  ⟨fun e1 e2 => Int.le_total e2.1 e1.1⟩

instance : IsTrans (Int × List Article) entriesDesc :=
  ⟨fun _ _ _ h1 h2 => le_trans h2 h1⟩

/-- The year sections in the order the `Posts` component renders them:
`Object.entries(postsByYear).sort(([a], [b]) => Number(b) - Number(a))`. -/
def renderedSections (l : List Article) : List (Int × List Article) :=
  List.insertionSort entriesDesc (postsByYear l)

/-- The `_meta` record a content-collections document carries into the
transforms. Only `path` is ever rewritten. -/
structure DocMeta where
  filePath : String
  fileName : String
  directory : String
  path : String
  extension : String
deriving Repr, DecidableEq

/-- The themes handed to `rehypeCode` in `rehypeCodeOptions`. -/
structure RehypeCodeThemes where
  light : String
  dark : String
deriving Repr, DecidableEq

/-- The `RehypeCodeOptions` value of the configuration. -/
structure RehypeCodeOptions where
  themes : RehypeCodeThemes
deriving Repr, DecidableEq

/-- The remark plugins the configuration can mention. -/
inductive RemarkPlugin where
  | remarkGfm
deriving Repr, DecidableEq

/-- The rehype plugins the configuration can mention; `rehypeCode` carries
its options. -/
inductive RehypePlugin where
  | rehypeCode (opts : RehypeCodeOptions)
  | remarkHeading
deriving Repr, DecidableEq

/-- The options object passed to `compileMDX`. -/
structure MDXOptions where
  remarkPlugins : List RemarkPlugin
  rehypePlugins : List RehypePlugin
deriving Repr, DecidableEq

/-- `rehypeCodeOptions` of the configuration file. -/
def rehypeCodeOptions : RehypeCodeOptions :=
  ⟨⟨"github-light", "github-dark-default"⟩⟩

/-- The plugin options both transforms pass to `compileMDX`. -/
def mdxOptions : MDXOptions :=
  ⟨[RemarkPlugin.remarkGfm],
   [RehypePlugin.rehypeCode rehypeCodeOptions, RehypePlugin.remarkHeading]⟩

/-- `path.replace(/\\/g, '/')`: every backslash becomes a forward slash. -/
def normalizePath (s : String) : String :=
  String.mk (s.data.map fun c => if c = '\\' then '/' else c)

/-- A document of the `pages` collection as the transform receives it. -/
structure PageDoc where
  title : String
  description : String
  content : String
  meta : DocMeta
deriving Repr, DecidableEq

/-- The object the `pages` transform returns. -/
structure PageOut (Body : Type) where
  title : String
  description : String
  content : String
  body : Body
  meta : DocMeta

/-- The `pages` transform: compile the MDX body and normalize `_meta.path`.
`compileMDX` is a parameter standing for the external library. -/
def pagesTransform {Ctx Body : Type} (compileMDX : Ctx → PageDoc → MDXOptions → Body)
    (ctx : Ctx) (page : PageDoc) : PageOut Body :=
  let body := compileMDX ctx page mdxOptions
  { title := page.title
    description := page.description
    content := page.content
    body := body
    meta := { page.meta with path := normalizePath page.meta.path } }

/-- A document of the `posts` collection as the transform receives it
(after the zod schema has coerced `date`). -/
structure PostDoc where
  title : String
  description : String
  date : JSDate
  image : Option String
  content : String
  meta : DocMeta
deriving Repr, DecidableEq

/-- The result object of the `reading-time` library; the transform only
reads `.text`. -/
structure ReadingTimeResult where
  text : String
  words : Nat
deriving Repr, DecidableEq

/-- The object the `posts` transform returns. -/
structure PostOut (Body : Type) where
  title : String
  description : String
  date : JSDate
  image : Option String
  content : String
  body : Body
  slug : String
  readingTime : String
  meta : DocMeta

/-- The `posts` transform: compile the MDX body, normalize `_meta.path` into
both `slug` and `_meta.path`, and attach `readingTime(page.content).text`.
`readingTime` and `compileMDX` are parameters standing for the external
libraries. -/
def postsTransform {Ctx Body : Type} (readingTime : String → ReadingTimeResult)
    (compileMDX : Ctx → PostDoc → MDXOptions → Body)
    (ctx : Ctx) (page : PostDoc) : PostOut Body :=
  let body := compileMDX ctx page mdxOptions
  let normalizedPath := normalizePath page.meta.path
  { title := page.title
    description := page.description
    date := page.date
    image := page.image
    content := page.content
    body := body
    slug := normalizedPath
    readingTime := (readingTime page.content).text
    meta := { page.meta with path := normalizedPath } }

/-- The options object `LocalTime` passes to `Intl.DateTimeFormat`,
together with the locale argument. -/
structure DateTimeFormatOptions where
  locale : String
  hour : String
  minute : String
  second : String
  timeZone : String
deriving Repr, DecidableEq

/-- The formatter configuration of `LocalTime`. -/
def localTimeFormatOptions : DateTimeFormatOptions :=
  ⟨"de-DE", "2-digit", "2-digit", "2-digit", "Europe/Berlin"⟩

/-- What `LocalTime` renders for the `Date` held in its state: the state
formatted by `Intl.DateTimeFormat` (a parameter standing for the platform
formatter) with the configured locale, fields and time zone. -/
def localTimeRender (format : DateTimeFormatOptions → JSDate → String)
    (time : JSDate) : String :=
  format localTimeFormatOptions time

/-- A live interval registered with the platform: its id and its delay in
milliseconds. -/
structure IntervalHandle where
  id : Nat
  delay : Nat
deriving Repr, DecidableEq

/-- A fresh interval id: larger than every id in the registry. -/
def freshIntervalId (r : List IntervalHandle) : Nat :=
  (r.map fun h => h.id).foldr max 0 + 1

/-- `setInterval(callback, delay)`: register a new interval and return its
handle. -/
def setIntervalJS (r : List IntervalHandle) (delay : Nat) :
    IntervalHandle × List IntervalHandle :=
  let h : IntervalHandle := ⟨freshIntervalId r, delay⟩
  (h, r ++ [h])

/-- `clearInterval(id)`: remove the interval with that id from the
registry. -/
def clearIntervalJS (r : List IntervalHandle) (i : Nat) : List IntervalHandle :=
  r.filter fun h => h.id != i

/-- The mount effect of `LocalTime`:
`setInterval(() => setTime(new Date()), 1000)`. -/
def localTimeEffectMount (r : List IntervalHandle) :
    IntervalHandle × List IntervalHandle :=
  setIntervalJS r 1000

/-- The effect cleanup of `LocalTime`: `clearInterval(interval)` on the
handle the mount effect created. -/
def localTimeEffectCleanup (h : IntervalHandle) (r : List IntervalHandle) :
    List IntervalHandle :=
  clearIntervalJS r h.id

/-- A JSON value as `JSON.stringify` receives it here: strings, arrays and
objects (an object is its fields in insertion order). -/
inductive JsonValue where
  | str (s : String)
  | arr (xs : List JsonValue)
  | obj (fields : List (String × JsonValue))
deriving Repr

/-- The escaping `JSON.stringify` applies inside a string literal. -/
def escapeJsonChar (c : Char) : String :=
  if c = '"' then "\\\""
  else if c = '\\' then "\\\\"
  else if c = '\x08' then "\\b"
  else if c = '\x0c' then "\\f"
  else if c = '\n' then "\\n"
  else if c = '\r' then "\\r"
  else if c = '\t' then "\\t"
  else if c.toNat < 32 then
    "\\u00" ++ String.mk [(Nat.digitChar (c.toNat / 16)), (Nat.digitChar (c.toNat % 16))]
  else String.singleton c

/-- Escape a whole string the way `JSON.stringify` quotes it. -/
def escapeJsonString (s : String) : String :=
  String.join (s.data.map escapeJsonChar)

mutual

/-- `JSON.stringify` (no indent argument): no whitespace, fields in
insertion order, strings escaped. -/
def jsonStringify : JsonValue → String
  | JsonValue.str s => "\"" ++ escapeJsonString s ++ "\""
  | JsonValue.arr xs => "[" ++ jsonStringifyElems xs ++ "]"
  | JsonValue.obj fs => "\x7b" ++ jsonStringifyFields fs ++ "\x7d"

/-- Comma-separated serialization of array elements. -/
def jsonStringifyElems : List JsonValue → String
  | [] => ""
  | [x] => jsonStringify x
  | x :: y :: rest => jsonStringify x ++ "," ++ jsonStringifyElems (y :: rest)

/-- Comma-separated serialization of object fields. -/
def jsonStringifyFields : List (String × JsonValue) → String
  | [] => ""
  | [(k, v)] => "\"" ++ escapeJsonString k ++ "\":" ++ jsonStringify v
  | (k, v) :: f :: rest =>
      "\"" ++ escapeJsonString k ++ "\":" ++ jsonStringify v ++ "," ++
        jsonStringifyFields (f :: rest)

end

/-- Field lookup in a serialized-to-be object (used only to state claims). -/
def jsonLookup (key : String) : JsonValue → Option JsonValue
  | JsonValue.obj fs => List.lookup key fs
  | _ => none

/-- One entry of the `social` configuration record; the component only
reads `href`. -/
structure SocialLink where
  label : String
  href : String
deriving Repr, DecidableEq

/-- `const protocol = process.env.NODE_ENV === 'production' ? 'https' : 'http'`. -/
def protocolFor (nodeEnv : String) : String :=
  if nodeEnv = "production" then "https" else "http"

/-- The template literal building `baseUrl` from the protocol and
`env.VERCEL_PROJECT_PRODUCTION_URL`. -/
def baseUrlFor (nodeEnv productionUrl : String) : String :=
  protocolFor nodeEnv ++ "://" ++ productionUrl

/-- The `person` object of the JSON-LD component, as a JSON value.
`urlResolve` is a parameter standing for `new URL(path, base).toString()`. -/
def personJson (nodeEnv productionUrl : String) (social : List SocialLink)
    (urlResolve : String → String → String) : JsonValue :=
  JsonValue.obj
    [("@context", JsonValue.str "https://schema.org"),
     ("@type", JsonValue.str "Person"),
     ("name", JsonValue.str "Felix Arjuna"),
     ("description", JsonValue.str "Cloud DevOps Engineer"),
     ("gender", JsonValue.str "male"),
     ("nationality", JsonValue.str "Indonesian"),
     ("url", JsonValue.str (baseUrlFor nodeEnv productionUrl)),
     ("image", JsonValue.str (urlResolve "/profile.png" (baseUrlFor nodeEnv productionUrl))),
     ("sameAs", JsonValue.arr (social.map fun s => JsonValue.str s.href)),
     ("alumniOf", JsonValue.str "Aachen University of Applied Sciences")]

/-- The single element the `JsonLd` component renders: its `type` attribute
and its text child. -/
structure ScriptElement where
  scriptType : String
  children : String
deriving Repr, DecidableEq

/-- The `JsonLd` component:
`<script type="application/ld+json">{JSON.stringify(person)}</script>`. -/
def JsonLd (nodeEnv productionUrl : String) (social : List SocialLink)
    (urlResolve : String → String → String) : ScriptElement :=
  ⟨"application/ld+json",
   jsonStringify (personJson nodeEnv productionUrl social urlResolve)⟩

/-! ### Lemmas about the grouping reduce -/

theorem lookupBucket_pushToBucket (acc : List (Int × List Article)) (y k : Int) (p : Article) :
    lookupBucket y (pushToBucket acc k p) =
      lookupBucket y acc ++ (if k = y then [p] else []) := by
  induction acc with
  | nil =>
    by_cases h : k = y <;> simp [pushToBucket, lookupBucket, h]
  | cons head rest ih =>
    obtain ⟨kh, ps⟩ := head
    by_cases hk : kh = k
    · subst hk
      by_cases hy : kh = y <;> simp [pushToBucket, lookupBucket, hy]
    · by_cases hy : kh = y
      · have hky : ¬ k = y := fun h => hk (hy.trans h.symm)
        have hyk : ¬ y = k := fun h => hky h.symm
        simp [pushToBucket, lookupBucket, hk, hy, hky, hyk]
      · simp [pushToBucket, lookupBucket, hk, hy, ih]

theorem lookupBucket_foldl (l : List Article) (acc : List (Int × List Article)) (y : Int) :
    lookupBucket y (l.foldl (fun a p => pushToBucket a p.date.year p) acc) =
      lookupBucket y acc ++ postsOfYear y l := by
  induction l generalizing acc with
  | nil => simp [postsOfYear]
  | cons p rest ih =>
    simp only [List.foldl_cons]
    rw [ih, lookupBucket_pushToBucket]
    by_cases h : p.date.year = y <;> simp [postsOfYear, h]

theorem lookupBucket_groupByYear (l : List Article) (y : Int) :
    lookupBucket y (groupByYear l) = postsOfYear y l := by
  have h := lookupBucket_foldl l [] y
  simpa [groupByYear, lookupBucket] using h

theorem bucketKeys_pushToBucket (acc : List (Int × List Article)) (k : Int) (p : Article) :
    bucketKeys (pushToBucket acc k p) =
      if k ∈ bucketKeys acc then bucketKeys acc else bucketKeys acc ++ [k] := by
  induction acc with
  | nil => simp [pushToBucket, bucketKeys]
  | cons head rest ih =>
    obtain ⟨kh, ps⟩ := head
    by_cases hk : kh = k
    · subst hk
      simp [pushToBucket, bucketKeys]
    · have hk2 : ¬ k = kh := fun h => hk h.symm
      simp only [bucketKeys, List.map_cons] at ih ⊢
      simp only [pushToBucket, if_neg hk, List.map_cons]
      rw [ih]
      by_cases hmem : k ∈ List.map Prod.fst rest
      · simp [hmem, hk2]
      · simp [hmem, hk2]

theorem bucketKeys_nodup_pushToBucket (acc : List (Int × List Article)) (k : Int) (p : Article)
    (h : (bucketKeys acc).Nodup) : (bucketKeys (pushToBucket acc k p)).Nodup := by
  rw [bucketKeys_pushToBucket]
  by_cases hmem : k ∈ bucketKeys acc
  · simpa [hmem]
  · simp only [hmem, if_false]
    simp [List.nodup_append, h, hmem]

theorem bucketKeys_nodup_foldl (l : List Article) (acc : List (Int × List Article))
    (h : (bucketKeys acc).Nodup) :
    (bucketKeys (l.foldl (fun a p => pushToBucket a p.date.year p) acc)).Nodup := by
  induction l generalizing acc with
  | nil => simpa
  | cons p rest ih =>
    simp only [List.foldl_cons]
    exact ih _ (bucketKeys_nodup_pushToBucket acc p.date.year p h)

theorem bucketKeys_nodup_groupByYear (l : List Article) :
    (bucketKeys (groupByYear l)).Nodup := by
  have h : (bucketKeys ([] : List (Int × List Article))).Nodup := by simp [bucketKeys]
  exact bucketKeys_nodup_foldl l [] h

theorem members_year_pushToBucket (acc : List (Int × List Article)) (p : Article)
    (h : ∀ e ∈ acc, ∀ q ∈ e.2, q.date.year = e.1) :
    ∀ e ∈ pushToBucket acc p.date.year p, ∀ q ∈ e.2, q.date.year = e.1 := by
  induction acc with
  | nil =>
    intro e he q hq
    simp only [pushToBucket, List.mem_singleton] at he
    subst he
    simp only [List.mem_singleton] at hq
    subst hq
    rfl
  | cons head rest ih =>
    obtain ⟨kh, ps⟩ := head
    intro e he q hq
    by_cases hk : kh = p.date.year
    · simp only [pushToBucket, if_pos hk] at he
      rcases List.mem_cons.mp he with he1 | he1
      · subst he1
        rcases List.mem_append.mp hq with hq1 | hq1
        · exact h (kh, ps) (List.mem_cons_self _ _) q hq1
        · simp only [List.mem_singleton] at hq1
          subst hq1
          exact hk.symm
      · exact h e (List.mem_cons_of_mem _ he1) q hq
    · simp only [pushToBucket, if_neg hk] at he
      rcases List.mem_cons.mp he with he1 | he1
      · subst he1
        exact h (kh, ps) (List.mem_cons_self _ _) q hq
      · exact ih (fun e2 he2 q2 hq2 => h e2 (List.mem_cons_of_mem _ he2) q2 hq2) e he1 q hq

theorem members_year_foldl (l : List Article) (acc : List (Int × List Article))
    (h : ∀ e ∈ acc, ∀ q ∈ e.2, q.date.year = e.1) :
    ∀ e ∈ l.foldl (fun a p => pushToBucket a p.date.year p) acc,
      ∀ q ∈ e.2, q.date.year = e.1 := by
  induction l generalizing acc with
  | nil =>
    simp only [List.foldl_nil]
    exact h
  | cons p rest ih =>
    simp only [List.foldl_cons]
    exact ih _ (members_year_pushToBucket acc p h)

theorem members_year_groupByYear (l : List Article) :
    ∀ e ∈ groupByYear l, ∀ q ∈ e.2, q.date.year = e.1 := by
  have h : ∀ e ∈ ([] : List (Int × List Article)), ∀ q ∈ e.2, q.date.year = e.1 := by
    intro e he; cases he
  exact members_year_foldl l [] h

theorem sortArticles_perm (l : List Article) : List.Perm (sortArticles l) l :=
  List.perm_insertionSort byDateDesc l

theorem sortArticles_sorted (l : List Article) :
    (sortArticles l).Pairwise byDateDesc :=
  List.sorted_insertionSort byDateDesc l

/-! ### Lemmas about the explicit JavaScript record operations -/

theorem recordSet_of_get_some (acc : List (Int × List Article)) (k : Int)
    (qs : List Article) (p : Article) (h : recordGet k acc = some qs) :
    recordSet k (qs ++ [p]) acc = pushToBucket acc k p := by
  induction acc with
  | nil => simp [recordGet] at h
  | cons head rest ih =>
    obtain ⟨kh, ps⟩ := head
    by_cases hk : kh = k
    · simp only [recordGet, if_pos hk] at h
      cases h
      simp [recordSet, pushToBucket, hk]
    · simp only [recordGet, if_neg hk] at h
      simp [recordSet, pushToBucket, hk, ih h]

theorem recordSet_of_get_none (acc : List (Int × List Article)) (k : Int)
    (v : List Article) (h : recordGet k acc = none) :
    recordSet k v acc = acc ++ [(k, v)] := by
  induction acc with
  | nil => simp [recordSet]
  | cons head rest ih =>
    obtain ⟨kh, ps⟩ := head
    by_cases hk : kh = k
    · simp [recordGet, hk] at h
    · simp only [recordGet, if_neg hk] at h
      simp [recordSet, hk, ih h]

theorem recordGet_append_self (acc : List (Int × List Article)) (k : Int)
    (v : List Article) (h : recordGet k acc = none) :
    recordGet k (acc ++ [(k, v)]) = some v := by
  induction acc with
  | nil => simp [recordGet]
  | cons head rest ih =>
    obtain ⟨kh, ps⟩ := head
    by_cases hk : kh = k
    · simp [recordGet, hk] at h
    · simp only [recordGet, if_neg hk] at h
      simp [recordGet, hk, ih h]

theorem recordSet_append_self (acc : List (Int × List Article)) (k : Int)
    (v w : List Article) (h : recordGet k acc = none) :
    recordSet k w (acc ++ [(k, v)]) = acc ++ [(k, w)] := by
  induction acc with
  | nil => simp [recordSet]
  | cons head rest ih =>
    obtain ⟨kh, ps⟩ := head
    by_cases hk : kh = k
    · simp [recordGet, hk] at h
    · simp only [recordGet, if_neg hk] at h
      simp [recordSet, hk, ih h]

theorem pushToBucket_of_get_none (acc : List (Int × List Article)) (k : Int)
    (p : Article) (h : recordGet k acc = none) :
    pushToBucket acc k p = acc ++ [(k, [p])] := by
  induction acc with
  | nil => simp [pushToBucket]
  | cons head rest ih =>
    obtain ⟨kh, ps⟩ := head
    by_cases hk : kh = k
    · simp [recordGet, hk] at h
    · simp only [recordGet, if_neg hk] at h
      simp [pushToBucket, hk, ih h]

theorem reduceStepJS_ok (acc : List (Int × List Article)) (p : Article) :
    reduceStepJS acc p = Except.ok (pushToBucket acc p.date.year p) := by
  cases hget : recordGet p.date.year acc with
  | some qs =>
    simp only [reduceStepJS, hget]
    rw [recordSet_of_get_some acc p.date.year qs p hget]
  | none =>
    simp only [reduceStepJS, hget]
    rw [recordSet_of_get_none acc p.date.year [] hget,
      recordGet_append_self acc p.date.year [] hget]
    simp only [List.nil_append]
    rw [recordSet_append_self acc p.date.year [] [p] hget,
      pushToBucket_of_get_none acc p.date.year p hget]

theorem foldlM_except_ok {α β : Type} (f : β → α → Except String β) (g : β → α → β)
    (hf : ∀ b a, f b a = Except.ok (g b a)) :
    ∀ (l : List α) (b : β), List.foldlM f b l = Except.ok (List.foldl g b l) := by
  intro l
  induction l with
  | nil => intro b; rfl
  | cons x xs ih =>
    intro b
    rw [List.foldlM_cons, hf]
    show List.foldlM f (g b x) xs = _
    rw [ih, List.foldl_cons]

theorem normalizePath_no_backslash (s : String) :
    ∀ c ∈ (normalizePath s).data, c ≠ '\\' := by
  intro c hc heq
  rcases List.mem_map.mp hc with ⟨a, _, ha⟩
  by_cases h : a = '\\'
  · rw [if_pos h] at ha
    rw [heq] at ha
    exact absurd ha (by decide)
  · rw [if_neg h] at ha
    exact h (ha.trans heq)

theorem mem_le_foldr_max (n : Nat) (ns : List Nat) (h : n ∈ ns) :
    n ≤ ns.foldr max 0 := by
  induction ns with
  | nil => cases h
  | cons x xs ih =>
    rcases List.mem_cons.mp h with h1 | h1
    · simp [h1, Nat.le_max_left]
    · exact le_trans (ih h1) (by simp [Nat.le_max_right])

/-! ### The claims -/

/-- Claim C1: `postsByYear` is a partition of the article list by year.
Every bucket keyed `y` holds exactly (as a multiset) the posts whose
`date.getFullYear()` equals `y`, every member of a bucket has the bucket's
key as its year, and no two buckets share a key, so each post lies in
exactly one bucket: the one keyed by its date's year. -/
theorem postsByYear_partition (l : List Article) :
    (∀ y : Int, List.Perm (lookupBucket y (postsByYear l)) (postsOfYear y l)) ∧
    (∀ e ∈ postsByYear l, ∀ q ∈ e.2, q.date.year = e.1) ∧
    (bucketKeys (postsByYear l)).Nodup := by
  refine ⟨fun y => ?_, ?_, ?_⟩
  · have h1 : lookupBucket y (postsByYear l) = postsOfYear y (sortArticles l) :=
      lookupBucket_groupByYear (sortArticles l) y
    rw [h1]
    simp only [postsOfYear]
    exact (sortArticles_perm l).filter _
  · exact members_year_groupByYear (sortArticles l)
  · exact bucketKeys_nodup_groupByYear (sortArticles l)

/-- Claim C7: within every year bucket of `postsByYear`, the posts appear
in non-increasing order of `date.getTime()` (newest first), because the
list is sorted descending before the grouping reduce appends each post to
its bucket in traversal order. -/
theorem postsByYear_bucket_sorted (l : List Article) (y : Int) :
    (lookupBucket y (postsByYear l)).Pairwise
      (fun a b => b.date.time ≤ a.date.time) := by
  have h1 : lookupBucket y (postsByYear l) = postsOfYear y (sortArticles l) :=
    lookupBucket_groupByYear (sortArticles l) y
  rw [h1]
  simp only [postsOfYear]
  exact ((sortArticles_sorted l).sublist (List.filter_sublist _)).imp fun h => h

/-- Claim C8: the `Posts` component renders the year sections in strictly
decreasing year order: after sorting the entries of `postsByYear` by their
numeric keys descending, every pair of sections in render order has a
strictly greater year on the earlier section. -/
theorem renderedSections_strictly_descending (l : List Article) :
    (renderedSections l).Pairwise (fun e1 e2 => e2.1 < e1.1) := by
  have hsorted : (renderedSections l).Pairwise entriesDesc :=
    List.sorted_insertionSort entriesDesc (postsByYear l)
  have hperm : List.Perm (renderedSections l) (postsByYear l) :=
    List.perm_insertionSort entriesDesc (postsByYear l)
  have hnodup : (bucketKeys (postsByYear l)).Nodup :=
    bucketKeys_nodup_groupByYear (sortArticles l)
  have hnodup2 : ((renderedSections l).map Prod.fst).Nodup :=
    ((hperm.map Prod.fst).symm).nodup hnodup
  have hne : (renderedSections l).Pairwise (fun e1 e2 => e1.1 ≠ e2.1) :=
    List.pairwise_map.mp hnodup2
  exact (hsorted.and hne).imp fun h => lt_of_le_of_ne h.1 fun heq => h.2 heq.symm

/-- Claim C4: the grouping computation has no failure: with the
`TypeError` hazard of `acc[year].push(post)` embedded as an `Except`
effect, the sort-then-reduce always returns `ok` (the guard creates the
bucket before every push), and its value is the total `postsByYear`. -/
theorem postsByYearJS_no_failure (l : List Article) :
    postsByYearJS l = Except.ok (postsByYear l) := by
  unfold postsByYearJS postsByYear groupByYear
  exact foldlM_except_ok reduceStepJS _ reduceStepJS_ok (sortArticles l) []

/-- Claim C2: the `posts` transform returns an object whose `readingTime`
field is the `.text` of the reading-time estimate computed from the raw
MDX content of the post, for every behaviour of the external
`reading-time` library. -/
theorem postsTransform_readingTime {Ctx Body : Type}
    (readingTime : String → ReadingTimeResult)
    (compileMDX : Ctx → PostDoc → MDXOptions → Body) (ctx : Ctx) (page : PostDoc) :
    (postsTransform readingTime compileMDX ctx page).readingTime =
      (readingTime page.content).text := rfl

/-- Claim C3: both transforms return a `body` equal to `compileMDX` applied
to the document with exactly the configured plugins: `remarkGfm` as the
remark plugin, and `rehypeCode` (with themes `github-light` and
`github-dark-default`) followed by `remarkHeading` as the rehype
plugins. -/
theorem transforms_body_compileMDX {Ctx Body : Type}
    (readingTime : String → ReadingTimeResult)
    (compilePages : Ctx → PageDoc → MDXOptions → Body)
    (compilePosts : Ctx → PostDoc → MDXOptions → Body)
    (ctx : Ctx) (page : PageDoc) (post : PostDoc) :
    (pagesTransform compilePages ctx page).body = compilePages ctx page mdxOptions ∧
    (postsTransform readingTime compilePosts ctx post).body =
      compilePosts ctx post mdxOptions ∧
    mdxOptions = ⟨[RemarkPlugin.remarkGfm],
      [RehypePlugin.rehypeCode ⟨⟨"github-light", "github-dark-default"⟩⟩,
       RehypePlugin.remarkHeading]⟩ :=
  ⟨rfl, rfl, rfl⟩

/-- Claim C9: both transforms normalize `_meta.path` by replacing every
backslash with a forward slash, the result contains no backslash, and the
post's `slug` equals that same normalized path. -/
theorem transforms_normalize_path {Ctx Body : Type}
    (readingTime : String → ReadingTimeResult)
    (compilePages : Ctx → PageDoc → MDXOptions → Body)
    (compilePosts : Ctx → PostDoc → MDXOptions → Body)
    (ctx : Ctx) (page : PageDoc) (post : PostDoc) :
    (pagesTransform compilePages ctx page).meta.path = normalizePath page.meta.path ∧
    (postsTransform readingTime compilePosts ctx post).meta.path =
      normalizePath post.meta.path ∧
    (postsTransform readingTime compilePosts ctx post).slug =
      normalizePath post.meta.path ∧
    (∀ c ∈ ((pagesTransform compilePages ctx page).meta.path).data, c ≠ '\\') ∧
    (∀ c ∈ ((postsTransform readingTime compilePosts ctx post).meta.path).data,
      c ≠ '\\') :=
  ⟨rfl, rfl, rfl, normalizePath_no_backslash page.meta.path,
    normalizePath_no_backslash post.meta.path⟩

/-- Claim C5: `LocalTime` renders the `Date` in its state formatted with
the `de-DE` locale, 2-digit hour, minute and second, in the Europe/Berlin
time zone (for every behaviour of the platform formatter); its mount
effect registers an interval of 1000 milliseconds, and its cleanup removes
exactly that interval, restoring the registry of live intervals. -/
theorem localTime_spec (format : DateTimeFormatOptions → JSDate → String)
    (t : JSDate) (r : List IntervalHandle) :
    localTimeRender format t =
      format ⟨"de-DE", "2-digit", "2-digit", "2-digit", "Europe/Berlin"⟩ t ∧
    (localTimeEffectMount r).1.delay = 1000 ∧
    localTimeEffectCleanup (localTimeEffectMount r).1 (localTimeEffectMount r).2 = r := by
  refine ⟨rfl, rfl, ?_⟩
  show clearIntervalJS (r ++ [⟨freshIntervalId r, 1000⟩]) (freshIntervalId r) = r
  have hfresh : ∀ x ∈ r, x.id ≠ freshIntervalId r := by
    intro x hx heq
    have hle : x.id ≤ ((r.map fun h => h.id).foldr max 0) :=
      mem_le_foldr_max _ _ (List.mem_map_of_mem _ hx)
    rw [heq] at hle
    simp only [freshIntervalId] at hle
    omega
  simp only [clearIntervalJS, List.filter_append]
  rw [List.filter_eq_self.mpr ?hall]
  case hall =>
    intro x hx
    simpa using hfresh x hx
  simp

/-- Claim C6: `JsonLd` renders exactly one script element: its type is
`application/ld+json` and its text content is the `JSON.stringify`
serialization of the schema.org person object, whose `@context` is
`https://schema.org`, `@type` is `Person`, `name` is `Felix Arjuna`,
`sameAs` is the list of hrefs of the configured social links, and whose
`url` has protocol `https` exactly when `NODE_ENV` is `production` and
`http` otherwise. -/
theorem jsonLd_spec (nodeEnv productionUrl : String) (social : List SocialLink)
    (urlResolve : String → String → String) :
    (JsonLd nodeEnv productionUrl social urlResolve).scriptType =
      "application/ld+json" ∧
    (JsonLd nodeEnv productionUrl social urlResolve).children =
      jsonStringify (personJson nodeEnv productionUrl social urlResolve) ∧
    jsonLookup "@context" (personJson nodeEnv productionUrl social urlResolve) =
      some (JsonValue.str "https://schema.org") ∧
    jsonLookup "@type" (personJson nodeEnv productionUrl social urlResolve) =
      some (JsonValue.str "Person") ∧
    jsonLookup "name" (personJson nodeEnv productionUrl social urlResolve) =
      some (JsonValue.str "Felix Arjuna") ∧
    jsonLookup "sameAs" (personJson nodeEnv productionUrl social urlResolve) =
      some (JsonValue.arr (social.map fun s => JsonValue.str s.href)) ∧
    jsonLookup "url" (personJson nodeEnv productionUrl social urlResolve) =
      some (JsonValue.str
        ((if nodeEnv = "production" then "https" else "http") ++ "://" ++ productionUrl)) :=
  ⟨rfl, rfl, rfl, rfl, rfl, rfl, rfl⟩
